import Mathlib

/-!
Verification of the mailbackup consistency/concurrency core against its
natural-language specification.  The Python source (manifest.py,
mailbackup/uploader.py, mailbackup/utils.py, mailbackup/integrity.py,
mailbackup/executor.py) is shallowly embedded below: pure helpers become
Lean functions, stateful procedures become explicit state-passing
functions, and effects of the external rclone subprocess are injected as
explicit outcome parameters.
-/

namespace Mailbackup

/-- Association-list dictionaries, modelling Python `dict[str, str]`.
Python dicts keep the insertion position of an existing key on overwrite
and append new keys at the end; `dictSet` reproduces exactly that. -/
abbrev Dict := List (String × String)

/-- Python `d[k] = v` / a single-key `dict.update`: overwrite in place if the
key exists (every stale copy of the key gets the new value), else append. -/
def dictSet (d : Dict) (k v : String) : Dict :=
  if d.any (fun p => p.1 == k) then
    d.map (fun p => if p.1 == k then (k, v) else p)
  else
    d ++ [(k, v)]

/-- Python `base.update(d)`: fold `dictSet` over the entries of `d`. -/
def dictUpdate (base d : Dict) : Dict :=
  d.foldl (fun acc p => dictSet acc p.1 p.2) base

/-- Removal of a key (used for remote `deletefile`). -/
def dictErase (d : Dict) (k : String) : Dict :=
  d.filter (fun p => p.1 != k)

theorem lookup_cons (a k v : String) (t : Dict) :
    List.lookup a ((k, v) :: t) = if a = k then some v else List.lookup a t := by
  by_cases h : a = k
  · have hb : (a == k) = true := by simpa using h
    simp [List.lookup, hb, h]
  · have hb : (a == k) = false := by simpa using h
    simp [List.lookup, hb, h]

theorem lookup_map_replace (d : Dict) (k v : String)
    (h : d.any (fun p => p.1 == k) = true) :
    (d.map (fun p => if p.1 == k then (k, v) else p)).lookup k = some v := by
  induction d with
  | nil => simp at h
  | cons p t ih =>
    rcases p with ⟨a, b⟩
    by_cases ha : a = k
    · subst ha
      simp [lookup_cons]
    · have hb : (a == k) = false := by simpa using ha
      have hka : ¬ k = a := fun hEq => ha hEq.symm
      simp only [List.any_cons, hb, Bool.false_or] at h
      simp [ha, lookup_cons, hka]
      simpa using ih h

theorem lookup_map_replace_ne (d : Dict) (k v k' : String) (h : k' ≠ k) :
    (d.map (fun p => if p.1 == k then (k, v) else p)).lookup k' = d.lookup k' := by
  induction d with
  | nil => simp
  | cons p t ih =>
    rcases p with ⟨a, b⟩
    by_cases ha : a = k
    · have hb : (a == k) = true := by simpa using ha
      have h2 : ¬ k' = a := by rw [ha]; exact h
      simp [ha, hb, lookup_cons, h, h2]
      simpa using ih
    · have hb : (a == k) = false := by simpa using ha
      by_cases hc : k' = a
      · simp [ha, lookup_cons, hc]
      · simp [ha, lookup_cons, hc]
        simpa using ih

theorem lookup_append_single (d : Dict) (k v : String)
    (h : d.any (fun p => p.1 == k) = false) :
    (d ++ [(k, v)]).lookup k = some v := by
  induction d with
  | nil => simp [lookup_cons]
  | cons p t ih =>
    rcases p with ⟨a, b⟩
    simp only [List.any_cons, Bool.or_eq_false_iff] at h
    have ha : ¬ a = k := by simpa using h.1
    have hka : ¬ k = a := fun hEq => ha hEq.symm
    simp [lookup_cons, hka]
    exact ih h.2

theorem lookup_append_single_ne (d : Dict) (k v k' : String) (h : k' ≠ k) :
    (d ++ [(k, v)]).lookup k' = d.lookup k' := by
  induction d with
  | nil => simp [lookup_cons, h]
  | cons p t ih =>
    rcases p with ⟨a, b⟩
    by_cases hc : k' = a
    · simp [lookup_cons, hc]
    · simp [lookup_cons, hc]
      exact ih

theorem lookup_dictSet_self (d : Dict) (k v : String) :
    (dictSet d k v).lookup k = some v := by
  unfold dictSet
  cases h : d.any (fun p => p.1 == k) with
  | true => simp only [if_pos]; exact lookup_map_replace d k v h
  | false =>
    simp only [Bool.false_eq_true, if_neg]
    exact lookup_append_single d k v h

theorem lookup_dictSet_ne (d : Dict) (k v k' : String) (h : k' ≠ k) :
    (dictSet d k v).lookup k' = d.lookup k' := by
  unfold dictSet
  cases hA : d.any (fun p => p.1 == k) with
  | true => simp only [if_pos]; exact lookup_map_replace_ne d k v k' h
  | false =>
    simp only [Bool.false_eq_true, if_neg]
    exact lookup_append_single_ne d k v k' h

theorem lookup_dictErase_ne (d : Dict) (k k' : String) (h : k' ≠ k) :
    (dictErase d k).lookup k' = d.lookup k' := by
  induction d with
  | nil => simp [dictErase]
  | cons p t ih =>
    rcases p with ⟨a, b⟩
    simp only [dictErase, List.filter_cons] at *
    by_cases hk : a = k
    · have hne : ¬ k' = a := by rw [hk]; exact h
      have hb : (a != k) = false := by simp [hk]
      simp [hb, lookup_cons, hne]
      exact ih
    · have hb : (a != k) = true := by simp [hk]
      by_cases hc : k' = a
      · simp [hb, lookup_cons, hc]
      · simp [hb, lookup_cons, hc]
        exact ih

/-! ## AtomicTransfer: `atomic_upload_file` (mailbackup/utils.py, lines 362-376)

The remote store is an association list path -> content.  Each rclone call
can fail; failures are injected through `AUEnv`.  `rclone moveto` is the
remote rename, which the RemoteStore collaborator contract treats as
atomic: on failure it leaves both source and destination untouched.  A
failed `copyto` may leave arbitrary leftover bytes, but only at the
temporary name it was writing to. -/

abbrev Store := List (String × String)

/-- Remote-store operations issued by `atomic_upload_file`, in order. -/
inductive ROp where
  | copyto (dst : String)
  | moveto (src dst : String)
  | deletefile (p : String)
deriving DecidableEq, Repr

/-- Injected outcomes for one `atomic_upload_file` call: the uuid hex used
for the temp name, and success of each subprocess step.  `copyLeftover` is
what a failed copy leaves at the temp name (possibly truncated bytes). -/
structure AUEnv where
  runId : String
  copyOk : Bool
  copyLeftover : Option String
  moveOk : Bool
  deleteOk : Bool
deriving Repr

/-- Temp name used by `atomic_upload_file`: `remote_final + ".tmp." + uuid`. -/
def atomicTmpName (remoteFinal runId : String) : String :=
  remoteFinal ++ ".tmp." ++ runId

/-- Shallow embedding of `atomic_upload_file(local_path, remote_final)`:
copy the local content to a unique temp name, then `moveto` it onto the
final name; on failure of either step, best-effort delete the temp object
and report failure.  Returns (returned bool, final store, op trace). -/
def atomic_upload_file (env : AUEnv) (localContent : String)
    (remoteFinal : String) (st : Store) : Bool × Store × List ROp :=
  let tmp := atomicTmpName remoteFinal env.runId
  if env.copyOk then
    let st1 := dictSet st tmp localContent
    if env.moveOk then
      (true, dictSet (dictErase st1 tmp) remoteFinal localContent,
        [ROp.copyto tmp, ROp.moveto tmp remoteFinal])
    else
      (false, if env.deleteOk then dictErase st1 tmp else st1,
        [ROp.copyto tmp, ROp.moveto tmp remoteFinal, ROp.deletefile tmp])
  else
    let st1 := match env.copyLeftover with
      | some c => dictSet st tmp c
      | none => st
    (false, if env.deleteOk then dictErase st1 tmp else st1,
      [ROp.copyto tmp, ROp.deletefile tmp])

theorem atomicTmpName_ne_final (remoteFinal runId : String) :
    atomicTmpName remoteFinal runId ≠ remoteFinal := by
  intro h
  have hlen : (atomicTmpName remoteFinal runId).length = remoteFinal.length := by
    rw [h]
  simp only [atomicTmpName, String.length_append] at hlen
  have : (".tmp." : String).length = 5 := rfl
  omega

/-- C3: for every publish attempt that fails at the copy step or at the
rename step, `atomic_upload_file` issues a best-effort delete of the
temporary remote object and returns failure, and the destination remote
path keeps exactly its pre-publish content (or stays absent): the function
only ever writes to the temporary name before the atomic rename. -/
theorem atomic_upload_file_failure_atomic
    (env : AUEnv) (localContent remoteFinal : String) (st : Store)
    (hfail : env.copyOk = false ∨ env.moveOk = false) :
    (atomic_upload_file env localContent remoteFinal st).1 = false ∧
    ROp.deletefile (atomicTmpName remoteFinal env.runId) ∈
      (atomic_upload_file env localContent remoteFinal st).2.2 ∧
    ((atomic_upload_file env localContent remoteFinal st).2.1).lookup remoteFinal
      = st.lookup remoteFinal := by
  have hne := atomicTmpName_ne_final remoteFinal env.runId
  have hset : ∀ (d : Store) (c : String),
      (dictSet d (atomicTmpName remoteFinal env.runId) c).lookup remoteFinal
        = d.lookup remoteFinal :=
    fun d c => lookup_dictSet_ne d _ c _ (Ne.symm hne)
  have herase : ∀ (d : Store),
      (dictErase d (atomicTmpName remoteFinal env.runId)).lookup remoteFinal
        = d.lookup remoteFinal :=
    fun d => lookup_dictErase_ne d _ _ (Ne.symm hne)
  cases hc : env.copyOk with
  | false =>
    cases hl : env.copyLeftover with
    | none =>
      cases hd : env.deleteOk with
      | false => exact ⟨by simp [atomic_upload_file, hc, hl, hd],
          by simp [atomic_upload_file, hc, hl, hd],
          by simp [atomic_upload_file, hc, hl, hd]⟩
      | true => exact ⟨by simp [atomic_upload_file, hc, hl, hd],
          by simp [atomic_upload_file, hc, hl, hd],
          by simp [atomic_upload_file, hc, hl, hd, herase]⟩
    | some c =>
      cases hd : env.deleteOk with
      | false => exact ⟨by simp [atomic_upload_file, hc, hl, hd],
          by simp [atomic_upload_file, hc, hl, hd],
          by simp [atomic_upload_file, hc, hl, hd, hset]⟩
      | true => exact ⟨by simp [atomic_upload_file, hc, hl, hd],
          by simp [atomic_upload_file, hc, hl, hd],
          by simp [atomic_upload_file, hc, hl, hd, herase, hset]⟩
  | true =>
    cases hm : env.moveOk with
    | true => cases hfail with
      | inl h => rw [hc] at h; exact absurd h (by simp)
      | inr h => rw [hm] at h; exact absurd h (by simp)
    | false =>
      cases hd : env.deleteOk with
      | false => exact ⟨by simp [atomic_upload_file, hc, hm, hd],
          by simp [atomic_upload_file, hc, hm, hd],
          by simp [atomic_upload_file, hc, hm, hd, hset]⟩
      | true => exact ⟨by simp [atomic_upload_file, hc, hm, hd],
          by simp [atomic_upload_file, hc, hm, hd],
          by simp [atomic_upload_file, hc, hm, hd, herase, hset]⟩

/-- Witness for C3 at a concrete input: rename failure after a successful
copy, with pre-publish content at the destination; the call reports
failure, deletes its temp object, and the destination content survives. -/
theorem atomic_upload_file_failure_atomic_witness :
    ((AUEnv.mk "u1" true none false true).copyOk = false ∨
      (AUEnv.mk "u1" true none false true).moveOk = false) ∧
    ((atomic_upload_file (AUEnv.mk "u1" true none false true) "newbytes"
        "2024/x/email.eml" [("2024/x/email.eml", "oldbytes")]).1 = false ∧
      ROp.deletefile (atomicTmpName "2024/x/email.eml" "u1") ∈
        (atomic_upload_file (AUEnv.mk "u1" true none false true) "newbytes"
          "2024/x/email.eml" [("2024/x/email.eml", "oldbytes")]).2.2 ∧
      ((atomic_upload_file (AUEnv.mk "u1" true none false true) "newbytes"
          "2024/x/email.eml" [("2024/x/email.eml", "oldbytes")]).2.1).lookup
          "2024/x/email.eml"
        = ([("2024/x/email.eml", "oldbytes")] : Store).lookup "2024/x/email.eml") :=
  ⟨Or.inr rfl,
    atomic_upload_file_failure_atomic (AUEnv.mk "u1" true none false true)
      "newbytes" "2024/x/email.eml" [("2024/x/email.eml", "oldbytes")] (Or.inr rfl)⟩

/-! ## PublishVerified: the email verification loop of `upload_email`
(mailbackup/uploader.py, lines 92-137)

The loop publishes `email.eml` with `atomic_upload_file`, re-resolves the
remote object hash via `remote_hash`, and compares it with the locally
computed sha256 (`hash_email`).  On mismatch it deletes the bad remote
object and retries, up to `max_attempts` times.  The remote object is
tracked by its content hash; per-attempt effects of the transport are
injected through `VAttempt`:
`uploadOk` is the `atomic_upload_file` result, `uploadedHash` the hash of
whatever content the successful upload left at the remote path,
`hashLookup` what `remote_hash(...)` followed by `.get(email_key)`
observed (`none` = the whole map was `None`, `some none` = key absent,
`some (some h)` = hash `h`), and `deleteOk` whether the best-effort
`rclone deletefile` of a bad object succeeded.  The existence check of the
local `email.eml` is loop-invariant (nothing in the loop touches it), so
it is a single flag. -/

/-- Source: `max_attempts = 3` in `upload_email`. -/
def max_attempts : Nat := 3

/-- Per-attempt injected transport outcomes for the verification loop. -/
structure VAttempt where
  uploadOk : Bool
  uploadedHash : String
  hashLookup : Option (Option String)
  deleteOk : Bool
deriving Repr, DecidableEq

/-- Observable operations of the verification loop. -/
inductive VOp where
  | publishOk
  | publishFailed
  | deleteBad
deriving DecidableEq, Repr

/-- One trip round `for attempt in range(1, max_attempts + 1)` when the
local file exists, threading the remote object state (its content hash, or
`none` when absent).  Returns (email_uploaded, final remote state, ops). -/
def upload_email_verifyLoop (hashEmail : String) :
    List VAttempt → Option String → Bool × Option String × List VOp
  | [], rem => (false, rem, [])
  | a :: rest, rem =>
    if a.uploadOk then
      let rem1 := some a.uploadedHash
      match a.hashLookup with
      | some (some h) =>
        if h = hashEmail then (true, rem1, [VOp.publishOk])
        else
          let rem2 := if a.deleteOk then none else rem1
          let r := upload_email_verifyLoop hashEmail rest rem2
          (r.1, r.2.1, VOp.publishOk :: VOp.deleteBad :: r.2.2)
      | _ =>
        let rem2 := if a.deleteOk then none else rem1
        let r := upload_email_verifyLoop hashEmail rest rem2
        (r.1, r.2.1, VOp.publishOk :: VOp.deleteBad :: r.2.2)
    else
      let r := upload_email_verifyLoop hashEmail rest rem
      (r.1, r.2.1, VOp.publishFailed :: r.2.2)

/-- The body-publish portion of `upload_email`: when no local source file
is present the loop immediately records success without touching the
remote; otherwise it runs the verification loop for at most
`max_attempts` attempts. -/
def upload_email_body_publish (localExists : Bool) (hashEmail : String)
    (atts : List VAttempt) (rem0 : Option String) :
    Bool × Option String × List VOp :=
  if localExists then
    upload_email_verifyLoop hashEmail (atts.take max_attempts) rem0
  else (true, rem0, [])

/-- C2: with a deterministic remote-hash oracle (each verification reads
back exactly the hash of the content the upload just stored) and a
working transport, the body publish succeeds iff the final remote object
carries the expected hash; each mismatch deletes the bad remote object
before retrying; failure comes after exactly `max_attempts` (3)
consecutive mismatches, leaving the remote object deleted; and with no
local source file the call is a no-op success. -/
theorem upload_email_verified_publish_convergence
    (hashEmail : String) (atts : List VAttempt) (rem0 : Option String)
    (hlen : atts.length = max_attempts)
    (hdet : ∀ a ∈ atts, a.uploadOk = true ∧
      a.hashLookup = some (some a.uploadedHash) ∧ a.deleteOk = true) :
    ((upload_email_body_publish true hashEmail atts rem0).1 = true ↔
      (upload_email_body_publish true hashEmail atts rem0).2.1 = some hashEmail) ∧
    ((upload_email_body_publish true hashEmail atts rem0).1 = false ↔
      ∀ a ∈ atts, a.uploadedHash ≠ hashEmail) ∧
    ((upload_email_body_publish true hashEmail atts rem0).1 = false →
      (upload_email_body_publish true hashEmail atts rem0).2.1 = none ∧
      ((upload_email_body_publish true hashEmail atts rem0).2.2).count VOp.deleteBad
        = max_attempts) ∧
    upload_email_body_publish false hashEmail atts rem0 = (true, rem0, []) := by
  obtain ⟨a1, a2, a3, rfl⟩ :=
    List.length_eq_three.mp (by simpa [max_attempts] using hlen)
  obtain ⟨h1u, h1l, h1d⟩ := hdet a1 (by simp)
  obtain ⟨h2u, h2l, h2d⟩ := hdet a2 (by simp)
  obtain ⟨h3u, h3l, h3d⟩ := hdet a3 (by simp)
  by_cases e1 : a1.uploadedHash = hashEmail <;>
    by_cases e2 : a2.uploadedHash = hashEmail <;>
      by_cases e3 : a3.uploadedHash = hashEmail <;>
        simp [upload_email_body_publish, upload_email_verifyLoop, max_attempts,
          h1u, h1l, h1d, h2u, h2l, h2d, h3u, h3l, h3d, e1, e2, e3]

/-- Witness for C2: two corrupted uploads followed by a faithful one, on a
deterministic oracle; the publish converges to success with the expected
hash on the remote. -/
theorem upload_email_verified_publish_convergence_witness :
    ([VAttempt.mk true "bad1" (some (some "bad1")) true,
      VAttempt.mk true "bad2" (some (some "bad2")) true,
      VAttempt.mk true "good" (some (some "good")) true].length = max_attempts) ∧
    (((upload_email_body_publish true "good"
        [VAttempt.mk true "bad1" (some (some "bad1")) true,
         VAttempt.mk true "bad2" (some (some "bad2")) true,
         VAttempt.mk true "good" (some (some "good")) true] none).1 = true ↔
      (upload_email_body_publish true "good"
        [VAttempt.mk true "bad1" (some (some "bad1")) true,
         VAttempt.mk true "bad2" (some (some "bad2")) true,
         VAttempt.mk true "good" (some (some "good")) true] none).2.1
        = some "good")) :=
  ⟨by decide,
    (upload_email_verified_publish_convergence "good"
      [VAttempt.mk true "bad1" (some (some "bad1")) true,
       VAttempt.mk true "bad2" (some (some "bad2")) true,
       VAttempt.mk true "good" (some (some "good")) true] none
      (by decide) (by decide)).1⟩

/-! ## Filename sanitization and remote-path derivation
(mailbackup/utils.py `sanitize`, `parse_year_and_ts`;
mailbackup/uploader.py lines 51-58 and 88-95;
mailbackup/integrity.py lines 107-121) -/

/-- Characters replaced by an underscore by the first regex substitution
of `sanitize`. -/
def isSanitizeSpecial (c : Char) : Bool :=
  c = '<' || c = '>' || c = ':' || c = '"' || c = '/' || c = '\\' ||
    c = '|' || c = '?' || c = '*' || c.toNat < 0x20

/-- ASCII whitespace matched by the second regex substitution of
`sanitize` and stripped by `str.strip`. -/
def isPySpace (c : Char) : Bool :=
  c = ' ' || c = '\t' || c = '\n' || c = '\r' || c.toNat = 11 || c.toNat = 12

/-- Python `str.strip()`: drop leading and trailing whitespace. -/
def stripWs (l : List Char) : List Char :=
  ((l.dropWhile isPySpace).reverse.dropWhile isPySpace).reverse

/-- The second regex substitution of `sanitize`: each maximal run of
whitespace becomes one underscore.  The flag records whether the previous
character was part of a whitespace run. -/
def collapseWsAux : Bool → List Char → List Char
  | _, [] => []
  | prevWs, c :: rest =>
    if isPySpace c then
      if prevWs then collapseWsAux true rest
      else '_' :: collapseWsAux true rest
    else c :: collapseWsAux false rest

/-- Python `s[:n]` on a string. -/
def strTake (n : Nat) (s : String) : String :=
  String.mk (s.toList.take n)

/-- Shallow embedding of `sanitize`: empty input gives "unknown";
otherwise NFKD-normalize and drop non-ASCII (the normalization is the
identity on ASCII, which is all the theorems below evaluate), replace the
special characters by underscores, strip and collapse whitespace to
underscores, and truncate to 80 characters. -/
def sanitize (s : String) : String :=
  if s = "" then "unknown"
  else
    let ascii := s.toList.filter (fun c => c.toNat < 128)
    let replaced := ascii.map (fun c => if isSanitizeSpecial c then '_' else c)
    String.mk ((collapseWsAux false (stripWs replaced)).take 80)

/-- Translation of `parse_year_and_ts` restricted to the ISO branch of
`parse_mail_date`, for timezone-aware UTC inputs of the exact shape
`YYYY-MM-DDTHH:MM:SS+00:00`: `fromisoformat` succeeds, `astimezone(utc)`
is the identity, the year is the leading four digits and
`strftime("%Y-%m-%d_%H-%M-%S")` joins the date and time parts with an
underscore and dashes.  Theorems evaluate it only on such inputs. -/
def parse_year_and_ts_iso (s : String) : Nat × String :=
  let chars := s.toList
  let datePart := chars.take 10
  let timePart := (chars.drop 11).take 8
  let year := (chars.take 4).foldl (fun a c => a * 10 + (c.toNat - 48)) 0
  (year, String.mk (datePart ++ '_' :: timePart.map (fun c => if c = ':' then '-' else c)))

/-- One row of the local catalog as read by the uploader and the
integrity auditor (sqlite3.Row fields used by them; `none` models SQL
NULL, and Python falls back through `row[k] or ""`). -/
structure MailRow where
  hash : Option String
  from_header : Option String
  subject : Option String
  date_header : Option String
  hash_sha256 : Option String
  remote_path : Option String
deriving Repr, DecidableEq

/-- Python `(hash_ or "unknown")[:6]`. -/
def shortHashOf (h : Option String) : String :=
  let s := h.getD ""
  strTake 6 (if s = "" then "unknown" else s)

/-- Folder name derived by `upload_email` (uploader.py lines 51-57):
`f"{safe_ts}_from_{safe_from}_subject_{safe_subj}_[{short_hash}]"`,
truncated to 150 characters.  The date parser is passed explicitly (both
call sites use `parse_year_and_ts` from utils.py). -/
def upload_folder_name (parse : String → Nat × String) (row : MailRow) : String :=
  let safe_from := sanitize (row.from_header.getD "")
  let safe_subj := sanitize (row.subject.getD "")
  let ts := (parse (row.date_header.getD "")).2
  strTake 150 (ts ++ "_from_" ++ safe_from ++ "_subject_" ++ safe_subj ++
    "_[" ++ shortHashOf row.hash ++ "]")

/-- Remote path recorded by `upload_email` for the message body
(`f"{year}/{folder_name}/email.eml"`, uploader.py lines 81, 158-160). -/
def upload_remote_key (parse : String → Nat × String) (row : MailRow) : String :=
  toString (parse (row.date_header.getD "")).1 ++ "/" ++
    upload_folder_name parse row ++ "/email.eml"

/-- Folder name derived by `repair_remote` (integrity.py lines 114-119):
`f"{safe_date}_from_{safe_from}_subject_{safe_subj}_[{short}]"`,
truncated to 150 characters. -/
def repair_folder_name (parse : String → Nat × String) (row : MailRow) : String :=
  let safe_from := sanitize (row.from_header.getD "")
  let safe_subj := sanitize (row.subject.getD "")
  let safe_date := (parse (row.date_header.getD "")).2
  strTake 150 (safe_date ++ "_from_" ++ safe_from ++ "_subject_" ++ safe_subj ++
    "_[" ++ shortHashOf row.hash ++ "]")

/-- Replacement remote path chosen by `repair_remote`
(`new_remote_path = f"{year}/{folder}/email.eml"`, integrity.py line 121). -/
def repair_new_remote_path (parse : String → Nat × String) (row : MailRow) : String :=
  toString (parse (row.date_header.getD "")).1 ++ "/" ++
    repair_folder_name parse row ++ "/email.eml"

/-- C7 (amended): the repair path is derived from the entry metadata
(sanitized sender/subject/date plus the 6-character fingerprint prefix,
folder truncated to 150 characters), by exactly the same derivation as
the original upload; consequently it coincides with the original upload
key for unchanged metadata instead of being guaranteed fresh. -/
theorem strTake_length_le (n : Nat) (s : String) : (strTake n s).length ≤ n := by
  have h : (strTake n s).length = (s.toList.take n).length := rfl
  rw [h, List.length_take]
  omega

theorem repair_path_same_derivation_as_upload
    (parse : String → Nat × String) (row : MailRow) :
    repair_new_remote_path parse row = upload_remote_key parse row ∧
    (repair_folder_name parse row).length ≤ 150 := by
  exact ⟨rfl, strTake_length_le 150 _⟩

/-- C7 counterexample: a catalog row whose recorded remote path is the one
`upload_email` derived for it; `repair_remote` derives the very same path,
so the "never equal to the old broken remote path" part of the claim is
false. -/
theorem repair_path_equals_old_path_counterexample :
    repair_new_remote_path parse_year_and_ts_iso
        (MailRow.mk (some "abcdef0123") (some "alice") (some "hi")
          (some "2024-01-01T00:00:00+00:00") (some "aa")
          (some "2024/2024-01-01_00-00-00_from_alice_subject_hi_[abcdef]/email.eml"))
      = "2024/2024-01-01_00-00-00_from_alice_subject_hi_[abcdef]/email.eml" ∧
    (MailRow.mk (some "abcdef0123") (some "alice") (some "hi")
      (some "2024-01-01T00:00:00+00:00") (some "aa")
      (some "2024/2024-01-01_00-00-00_from_alice_subject_hi_[abcdef]/email.eml")).remote_path
      = some (repair_new_remote_path parse_year_and_ts_iso
        (MailRow.mk (some "abcdef0123") (some "alice") (some "hi")
          (some "2024-01-01T00:00:00+00:00") (some "aa")
          (some "2024/2024-01-01_00-00-00_from_alice_subject_hi_[abcdef]/email.eml"))) := by
  constructor
  · decide
  · decide

/-! ## ConsistencyAuditor: classification (mailbackup/integrity.py, lines 194-226)

For each synced row the loop reads `dhashlocal = row["hash_sha256"] or ""`
and `dremotepath = row["remote_path"] or ""`, skips rows with an empty
remote path, then takes `rem_hash = remote_map.get(dremotepath, "missing")`
and branches: `rem_hash == "missing"` counts missing; otherwise
`dhashlocal and rem_hash != dhashlocal` counts mismatch; otherwise the row
is counted nowhere (implicitly OK).  `stats["verified"]` is incremented
for every row that was not skipped. -/

/-- Outcome of the per-row branching of `integrity_check`. -/
inductive RowClass where
  | skipped
  | missingC
  | mismatchC
  | okC
deriving DecidableEq, Repr

/-- The per-row branching of `integrity_check`, factored as a function. -/
def classifyRow (remote_map : Dict) (row : MailRow) : RowClass :=
  let dhashlocal := row.hash_sha256.getD ""
  let dremotepath := row.remote_path.getD ""
  if dremotepath = "" then RowClass.skipped
  else
    let rem := (remote_map.lookup dremotepath).getD "missing"
    if rem = "missing" then RowClass.missingC
    else if dhashlocal ≠ "" ∧ rem ≠ dhashlocal then RowClass.mismatchC
    else RowClass.okC

/-- Counters accumulated by the `integrity_check` loop, as structural
recursion over the row list: (missing, mismatch, verified).  The loop
adds to `verified` for every non-skipped row. -/
def integrity_counts (m : Dict) : List MailRow → Nat × Nat × Nat
  | [] => (0, 0, 0)
  | r :: rest =>
    let acc := integrity_counts m rest
    match classifyRow m r with
    | RowClass.skipped => acc
    | RowClass.missingC => (acc.1 + 1, acc.2.1, acc.2.2 + 1)
    | RowClass.mismatchC => (acc.1, acc.2.1 + 1, acc.2.2 + 1)
    | RowClass.okC => (acc.1, acc.2.1, acc.2.2 + 1)

/-- Classification following the words of the audit-completeness spec
sentence, for comparison with `classifyRow`: absent from the resolved
hash map means MISSING, present with a hash differing from the local hash
means MISMATCH, present and equal means OK. -/
def classifyRowSpec (m : Dict) (row : MailRow) : RowClass :=
  let dremotepath := row.remote_path.getD ""
  if dremotepath = "" then RowClass.skipped
  else
    match m.lookup dremotepath with
    | none => RowClass.missingC
    | some h =>
      if h ≠ row.hash_sha256.getD "" then RowClass.mismatchC else RowClass.okC

/-- C5 (amended): every synced row with a non-empty remote path is
classified as exactly one of missing / mismatch / OK — where a remote
hash equal to the literal sentinel "missing" counts as missing, and a
present hash only counts as mismatch when the local hash is non-empty
(rows with an empty local hash are classified OK) — the three class
counts sum to the number of such rows, the verified counter counts every
such row, and rows with an empty remote path are skipped entirely. -/
theorem integrity_check_classification (m : Dict) (rows : List MailRow) :
    (∀ r ∈ rows, r.remote_path.getD "" ≠ "" →
      (classifyRow m r = RowClass.missingC ∨ classifyRow m r = RowClass.mismatchC ∨
        classifyRow m r = RowClass.okC)) ∧
    (∀ r ∈ rows, r.remote_path.getD "" = "" → classifyRow m r = RowClass.skipped) ∧
    ((integrity_counts m rows).1 + (integrity_counts m rows).2.1 +
        rows.countP (fun r => classifyRow m r == RowClass.okC)
      = (rows.filter (fun r => r.remote_path.getD "" != "")).length) ∧
    ((integrity_counts m rows).2.2
      = (rows.filter (fun r => r.remote_path.getD "" != "")).length) := by
  refine ⟨?_, ?_, ?_⟩
  · intro r _ hne
    unfold classifyRow
    have hb : ¬ (r.remote_path.getD "" = "") := hne
    simp only [hb, if_neg]
    by_cases h1 : ((m.lookup (r.remote_path.getD "")).getD "missing") = "missing"
    · simp [h1]
    · by_cases h2 : r.hash_sha256.getD "" ≠ "" ∧
          ((m.lookup (r.remote_path.getD "")).getD "missing") ≠ r.hash_sha256.getD ""
      · simp [h1, h2]
      · simp [h1, h2]
  · intro r _ he
    unfold classifyRow
    simp [he]
  · induction rows with
    | nil => simp [integrity_counts]
    | cons r rest ih =>
      obtain ⟨ih1, ih2⟩ := ih
      by_cases hp : r.remote_path.getD "" = ""
      · have hcls : classifyRow m r = RowClass.skipped := by
          unfold classifyRow; simp [hp]
        constructor
        · simp only [integrity_counts, hcls, List.countP_cons, List.filter_cons]
          simp [hp, hcls, ih1]
        · simp only [integrity_counts, hcls, List.filter_cons]
          simp [hp, ih2]
      · have hcls : classifyRow m r ≠ RowClass.skipped := by
          unfold classifyRow
          simp only [hp, if_neg]
          by_cases h1 : ((m.lookup (r.remote_path.getD "")).getD "missing") = "missing"
          · simp [h1]
          · by_cases h2 : r.hash_sha256.getD "" ≠ "" ∧
                ((m.lookup (r.remote_path.getD "")).getD "missing") ≠ r.hash_sha256.getD ""
            · simp [h1, h2]
            · simp [h1, h2]
        constructor
        · cases hc : classifyRow m r with
          | skipped => exact absurd hc hcls
          | missingC =>
            simp only [integrity_counts, hc, List.countP_cons, List.filter_cons]
            simp [hp, hc, ih1]
            omega
          | mismatchC =>
            simp only [integrity_counts, hc, List.countP_cons, List.filter_cons]
            simp [hp, hc, ih1]
            omega
          | okC =>
            simp only [integrity_counts, hc, List.countP_cons, List.filter_cons]
            simp [hp, hc, ih1]
            omega
        · cases hc : classifyRow m r with
          | skipped => exact absurd hc hcls
          | missingC =>
            simp only [integrity_counts, hc, List.filter_cons]
            simp [hp, ih2]
          | mismatchC =>
            simp only [integrity_counts, hc, List.filter_cons]
            simp [hp, ih2]
          | okC =>
            simp only [integrity_counts, hc, List.filter_cons]
            simp [hp, ih2]

/-- Witness for C5 at a concrete input: one OK row, one missing row, one
mismatching row, one skipped row against a two-entry hash map. -/
theorem integrity_check_classification_witness :
    ((integrity_counts [("p", "h1"), ("q", "h2")]
        [MailRow.mk none none none none (some "h1") (some "p"),
         MailRow.mk none none none none (some "h9") (some "q"),
         MailRow.mk none none none none (some "h3") (some "r"),
         MailRow.mk none none none none (some "h4") none]).1 +
      (integrity_counts [("p", "h1"), ("q", "h2")]
        [MailRow.mk none none none none (some "h1") (some "p"),
         MailRow.mk none none none none (some "h9") (some "q"),
         MailRow.mk none none none none (some "h3") (some "r"),
         MailRow.mk none none none none (some "h4") none]).2.1 +
      ([MailRow.mk none none none none (some "h1") (some "p"),
        MailRow.mk none none none none (some "h9") (some "q"),
        MailRow.mk none none none none (some "h3") (some "r"),
        MailRow.mk none none none none (some "h4") none].countP
          (fun r => classifyRow [("p", "h1"), ("q", "h2")] r == RowClass.okC))
      = ([MailRow.mk none none none none (some "h1") (some "p"),
          MailRow.mk none none none none (some "h9") (some "q"),
          MailRow.mk none none none none (some "h3") (some "r"),
          MailRow.mk none none none none (some "h4") none].filter
            (fun r => r.remote_path.getD "" != "")).length) :=
  (integrity_check_classification [("p", "h1"), ("q", "h2")]
    [MailRow.mk none none none none (some "h1") (some "p"),
     MailRow.mk none none none none (some "h9") (some "q"),
     MailRow.mk none none none none (some "h3") (some "r"),
     MailRow.mk none none none none (some "h4") none]).2.2.1

/-- C5 counterexample: a synced row with an empty local hash whose remote
object is present with a different (non-empty) hash.  The claim says the
row is a MISMATCH (present with a hash differing from the local hash);
the code classifies it OK because the mismatch branch requires a
non-empty local hash. -/
theorem integrity_mismatch_requires_local_hash_counterexample :
    classifyRow [("p", "deadbeef")]
        (MailRow.mk none none none none (some "") (some "p")) = RowClass.okC ∧
    classifyRowSpec [("p", "deadbeef")]
        (MailRow.mk none none none none (some "") (some "p")) = RowClass.mismatchC ∧
    ("deadbeef" : String) ≠ "" := by
  refine ⟨by decide, by decide, by decide⟩

/-! ## ConsistencyAuditor: repair effects (mailbackup/integrity.py, lines 93-157)

`repair_remote` rebuilds a docset, uploads `email.eml` (fatal on failure),
attachments and `info.json` (best-effort, failures only logged), then on
success queues a manifest entry and updates the row's `remote_path` in
the DB; on failure it leaves both untouched.  In BOTH cases it removes
the rebuild directory and increments `stats["repaired"]`. -/

/-- Statistics dictionary (Python `dict[str, int]`). -/
abbrev Stats := List (String × Nat)

/-- Python `stats[k] = stats.get(k, 0) + 1` (preserving dict order). -/
def statsBump (st : Stats) (k : String) : Stats :=
  let v := (st.lookup k).getD 0 + 1
  if st.any (fun p => p.1 == k) then
    st.map (fun p => if p.1 == k then (k, v) else p)
  else
    st ++ [(k, v)]

/-- Injected upload outcomes for one `repair_remote` call.
`emailInBundle` is whether the rebuilt docset contains `email.eml`
(the local source file existed); attachment and `info.json` outcomes are
carried for fidelity but cannot affect the success flag. -/
structure RepairEnv where
  emailInBundle : Bool
  emailUploadOk : Bool
  attachUploadOk : List Bool
  infoUploadOk : Bool
deriving Repr

/-- Observable effects of one `repair_remote` call. -/
structure RepairResult where
  success : Bool
  db : Dict
  queued : Option (String × String)
  stats : Stats
  bundleDiscarded : Bool
deriving Repr, DecidableEq

/-- Shallow embedding of `repair_remote`: `success` starts `True` and is
cleared only when the rebuilt `email.eml` exists and its atomic upload
fails; on success the manifest queue receives `(new_remote_path,
hashlocal)` and the DB row's `remote_path` is updated (keyed by the row
fingerprint); the rebuild bundle is removed and `stats["repaired"]` is
incremented unconditionally. -/
def repair_remote (parse : String → Nat × String) (env : RepairEnv)
    (row : MailRow) (db : Dict) (stats : Stats) : RepairResult :=
  let hashlocal := row.hash_sha256.getD ""
  let newPath := repair_new_remote_path parse row
  let success := !(env.emailInBundle && !env.emailUploadOk)
  if success then
    { success := true,
      db := dictSet db (row.hash.getD "") newPath,
      queued := some (newPath, hashlocal),
      stats := statsBump stats "repaired",
      bundleDiscarded := true }
  else
    { success := false, db := db, queued := none,
      stats := statsBump stats "repaired", bundleDiscarded := true }

/-- C6 (amended): if the repair's message-body publish fails, the catalog
entry is left untouched — the DB mapping is byte-for-byte unchanged and
no manifest entry is queued — the rebuild bundle is discarded, and the
shared "repaired" statistics counter is incremented regardless of outcome
(the code keeps no separate failure counter). -/
theorem repair_remote_failure_frame
    (parse : String → Nat × String) (env : RepairEnv) (row : MailRow)
    (db : Dict) (stats : Stats)
    (hin : env.emailInBundle = true) (hfail : env.emailUploadOk = false) :
    (repair_remote parse env row db stats).success = false ∧
    (repair_remote parse env row db stats).db = db ∧
    (repair_remote parse env row db stats).queued = none ∧
    (repair_remote parse env row db stats).bundleDiscarded = true ∧
    (repair_remote parse env row db stats).stats = statsBump stats "repaired" := by
  unfold repair_remote
  simp [hin, hfail]

/-- Witness for C6 at a concrete input: a failed body publish leaves the
DB untouched and queues nothing. -/
theorem repair_remote_failure_frame_witness :
    ((RepairEnv.mk true false [] true).emailInBundle = true ∧
      (RepairEnv.mk true false [] true).emailUploadOk = false) ∧
    ((repair_remote parse_year_and_ts_iso (RepairEnv.mk true false [] true)
        (MailRow.mk (some "abc") none none none (some "h") (some "old"))
        [("abc", "old")] [("repaired", 0)]).db = [("abc", "old")] ∧
      (repair_remote parse_year_and_ts_iso (RepairEnv.mk true false [] true)
        (MailRow.mk (some "abc") none none none (some "h") (some "old"))
        [("abc", "old")] [("repaired", 0)]).queued = none) :=
  ⟨⟨rfl, rfl⟩,
    ⟨(repair_remote_failure_frame parse_year_and_ts_iso
        (RepairEnv.mk true false [] true)
        (MailRow.mk (some "abc") none none none (some "h") (some "old"))
        [("abc", "old")] [("repaired", 0)] rfl rfl).2.1,
      (repair_remote_failure_frame parse_year_and_ts_iso
        (RepairEnv.mk true false [] true)
        (MailRow.mk (some "abc") none none none (some "h") (some "old"))
        [("abc", "old")] [("repaired", 0)] rfl rfl).2.2.1⟩⟩

/-- C6 counterexample: on a failed repair the code increments the shared
"repaired" counter — the same counter reported as a success count — and
maintains no failure counter at all (no "failed" key appears), so the
claim's "a failure counter is incremented" is false at this input. -/
theorem repair_failure_counter_counterexample :
    (repair_remote parse_year_and_ts_iso (RepairEnv.mk true false [] true)
        (MailRow.mk (some "abc") none none none (some "h") (some "old"))
        [("abc", "old")] [("verified", 0), ("repaired", 0)]).stats
      = [("verified", 0), ("repaired", 1)] ∧
    ((repair_remote parse_year_and_ts_iso (RepairEnv.mk true false [] true)
        (MailRow.mk (some "abc") none none none (some "h") (some "old"))
        [("abc", "old")] [("verified", 0), ("repaired", 0)]).stats).lookup "failed"
      = none ∧
    (repair_remote parse_year_and_ts_iso (RepairEnv.mk true false [] true)
        (MailRow.mk (some "abc") none none none (some "h") (some "old"))
        [("abc", "old")] [("verified", 0), ("repaired", 0)]).success = false := by
  refine ⟨by decide, by decide, by decide⟩

/-! ## Auditor hash resolution (mailbackup/integrity.py lines 171-191;
mailbackup/utils.py `remote_hash`, lines 424-498)

`remote_hash(settings, file_pattern="*", remote_path=None, silent_logging=True)`
substitutes `settings.remote` for `remote_path` only when the argument is
`None`, then passes the value into the rclone subprocess wrappers (which
`str()` every argument).  `integrity_check` calls
`remote_hash(settings, "**/email.eml", False)`: the third positional
argument binds `remote_path`, not `silent_logging`.  The streaming
fallback, when reached, immediately evaluates
`remote_path.startswith(settings.remote)` (an `AttributeError` on a bool)
or, for string arguments, calls
`create_managed_executor(..., silent=True)` — a keyword the factory in
mailbackup/executor.py does not accept (`TypeError`). -/

/-- A Python value passed as the `remote_path` argument. -/
inductive PyArg where
  | noneV
  | falseV
  | strV (s : String)
deriving DecidableEq, Repr

/-- Python `str()` of the argument, as applied by `_run_rclone` when
building the subprocess command. -/
def pyArgStr : PyArg → String
  | PyArg.noneV => "None"
  | PyArg.falseV => "False"
  | PyArg.strV s => s

/-- The `remote_path` value after the `is None` default substitution. -/
def remoteHashEffectiveArg (settingsRemote : String) : PyArg → PyArg
  | PyArg.noneV => PyArg.strV settingsRemote
  | a => a

/-- The path string the rclone `hashsum`/`lsjson` subprocesses are pointed
at. -/
def remoteHashTargetString (settingsRemote : String) (remote_path : PyArg) : String :=
  pyArgStr (remoteHashEffectiveArg settingsRemote remote_path)

/-- Result of a `remote_hash` call: a normal return (`some` map or `None`),
or one of the two Python errors raised on the streaming-fallback path. -/
inductive RemoteHashOut where
  | ret (m : Option Dict)
  | typeErrorFactory
  | attrErrorStartswith
deriving DecidableEq, Repr

/-- Shallow embedding of `remote_hash`: try `rclone hashsum` over the
target (the oracle returns `none` for a non-zero exit, `some` parsed
entries otherwise); when that yields no entries, list the target with
`lsjson` — returning `None` if the listing fails — and otherwise enter
the streaming fallback, which immediately dies: on a bool argument at
`remote_path.startswith`, on a string argument at
`create_managed_executor(..., silent=True)`. -/
def remote_hash (settingsRemote : String) (remote_path : PyArg)
    (hashsum : String → Option Dict) (lsjsonOk : String → Bool) : RemoteHashOut :=
  let arg := remoteHashEffectiveArg settingsRemote remote_path
  let target := pyArgStr arg
  let remote_map := (hashsum target).getD []
  if remote_map ≠ [] then RemoteHashOut.ret (some remote_map)
  else if lsjsonOk target then
    match arg with
    | PyArg.falseV => RemoteHashOut.attrErrorStartswith
    | _ => RemoteHashOut.typeErrorFactory
  else RemoteHashOut.ret none

/-- Hash resolution of `integrity_check`: use the downloaded canonical
manifest when present, else call `remote_hash(settings, "**/email.eml",
False)` — with `False` bound positionally to `remote_path`.  A `ret none`
makes the audit return early ("skipping integrity check"). -/
def integrity_resolve (manifestFile : Option Dict) (settingsRemote : String)
    (hashsum : String → Option Dict) (lsjsonOk : String → Bool) : RemoteHashOut :=
  match manifestFile with
  | some d => RemoteHashOut.ret (some d)
  | none => remote_hash settingsRemote PyArg.falseV hashsum lsjsonOk

/-- C9: evaluation at the failing input.  With the canonical remote
manifest absent and a store that supports SHA256 hashsum over the real
remote root, the audit points rclone at the literal path "False" (the
positional `False` meant to be `silent_logging`), both signals fail
there, and the audit aborts — while the same resolution with
`remote_path` left to default resolves the full hash map.  The spec's
resolution order is the module's own documented intent; the positional
argument is the slip. -/
theorem integrity_resolution_false_argument_bug :
    integrity_resolve none "remote:backup"
        (fun p => if p = "remote:backup" then some [("2024/x/email.eml", "a1b2")] else none)
        (fun p => p = "remote:backup")
      = RemoteHashOut.ret none ∧
    remoteHashTargetString "remote:backup" PyArg.falseV = "False" ∧
    remote_hash "remote:backup" PyArg.noneV
        (fun p => if p = "remote:backup" then some [("2024/x/email.eml", "a1b2")] else none)
        (fun p => p = "remote:backup")
      = RemoteHashOut.ret (some [("2024/x/email.eml", "a1b2")]) := by
  refine ⟨by decide, by decide, by decide⟩

/-! ## ManifestSynchronizer (manifest.py)

`upload_manifest_resilient` writes the in-progress marker, cleans stale
remote temp manifests, downloads the remote manifest (entries plus the
sha256 of its raw bytes), merges remote -> local-file -> extra entries
(later source wins), writes the merge locally, then loops up to
`max_retries`: upload the local file to `manifest.csv.<uuid>.tmp`,
re-download, and if the sha is unchanged `moveto` the temp onto the
canonical name; otherwise adopt the new snapshot as the new base, remerge
and retry.  After exhausting retries it uploads the merge to
`manifest.conflict.<uuid>.csv` and reports failure.  The marker is
unlinked in a `finally`.  Concurrent writers are modelled by the
`download` oracle (the nth download's entries and sha); `uuid` is the nth
uuid4 hex drawn. -/

theorem lookup_dictUpdate_absent (base : Dict) (l : Dict) (k : String)
    (h : ∀ p ∈ l, p.1 ≠ k) :
    (dictUpdate base l).lookup k = base.lookup k := by
  induction l generalizing base with
  | nil => rfl
  | cons p t ih =>
    rcases p with ⟨a, b⟩
    have hstep : dictUpdate base ((a, b) :: t) = dictUpdate (dictSet base a b) t := rfl
    rw [hstep, ih (dictSet base a b) (fun q hq => h q (List.mem_cons_of_mem _ hq))]
    exact lookup_dictSet_ne base a b k (Ne.symm (h (a, b) (List.mem_cons_self _ _)))

theorem lookup_dictUpdate_keyval (base : Dict) (l : Dict) (k v : String)
    (hmem : ∃ p ∈ l, p.1 = k) (hval : ∀ p ∈ l, p.1 = k → p.2 = v) :
    (dictUpdate base l).lookup k = some v := by
  induction l generalizing base with
  | nil => obtain ⟨p, hp, _⟩ := hmem; simp at hp
  | cons p t ih =>
    rcases p with ⟨a, b⟩
    have hstep : dictUpdate base ((a, b) :: t) = dictUpdate (dictSet base a b) t := rfl
    rw [hstep]
    by_cases ht : ∃ q ∈ t, q.1 = k
    · exact ih (dictSet base a b) ht (fun q hq => hval q (List.mem_cons_of_mem _ hq))
    · obtain ⟨p0, hp0, hp0k⟩ := hmem
      rcases List.mem_cons.mp hp0 with hhead | htail
      · have ha : a = k := by rw [hhead] at hp0k; exact hp0k
        have hb : b = v := hval (a, b) (List.mem_cons_self _ _) ha
        have habsent : ∀ q ∈ t, q.1 ≠ k := by
          intro q hq hqk
          exact ht ⟨q, hq, hqk⟩
        subst ha
        subst hb
        rw [lookup_dictUpdate_absent (dictSet base a b) t a habsent]
        exact lookup_dictSet_self base a b
      · exact absurd ⟨p0, htail, hp0k⟩ ht

theorem dictSet_exists_key (d : Dict) (k v : String) :
    ∃ p ∈ dictSet d k v, p.1 = k := by
  unfold dictSet
  cases h : d.any (fun p => p.1 == k) with
  | true =>
    simp only [if_pos]
    obtain ⟨p, hp, hpk⟩ := List.any_eq_true.mp h
    refine ⟨(k, v), ?_, rfl⟩
    refine List.mem_map.mpr ⟨p, hp, ?_⟩
    simp [hpk]
  | false =>
    simp only [Bool.false_eq_true, if_neg]
    exact ⟨(k, v), by simp, rfl⟩

theorem dictSet_keyval (d : Dict) (k v : String) :
    ∀ p ∈ dictSet d k v, p.1 = k → p.2 = v := by
  unfold dictSet
  cases h : d.any (fun p => p.1 == k) with
  | true =>
    simp only [if_pos]
    intro p hp hpk
    obtain ⟨q, hq, hfq⟩ := List.mem_map.mp hp
    by_cases hqk : q.1 = k
    · have hb : (q.1 == k) = true := by simpa using hqk
      rw [← hfq]
      simp [hb]
    · have hb : (q.1 == k) = false := by simpa using hqk
      rw [← hfq] at hpk
      simp only [hb, Bool.false_eq_true, if_neg] at hpk
      exact absurd hpk hqk
  | false =>
    simp only [Bool.false_eq_true, if_neg]
    intro p hp hpk
    rcases List.mem_append.mp hp with hd | hlast
    · have hc : d.any (fun q => q.1 == k) = true :=
        List.any_eq_true.mpr ⟨p, hd, by simpa using hpk⟩
      rw [h] at hc
      exact absurd hc (by simp)
    · have hpv : p = (k, v) := by simpa using hlast
      rw [hpv]
/-- Config default `max_manifest_conflict_retries` (config.py line 203). -/
def max_manifest_conflict_retries_default : Nat := 3

/-- Config default `manifest_remote_name` (config.py line 202): the
canonical remote manifest object name. -/
def manifest_remote_name_default : String := "manifest.csv"

/-- Operations of one `upload_manifest_resilient` run, in order.
`marker` carries the timestamp written to `manifest.uploading`;
`download` is a re-download of the remote manifest; `writeLocal` an
atomic write of the merged manifest to the local file. -/
inductive MOp where
  | marker (content : String)
  | cleanupTemps
  | download
  | writeLocal
  | copyto (dst : String)
  | moveto (src dst : String)
deriving DecidableEq, Repr

/-- Environment of a resilient upload: the nth remote-manifest download
(entries, sha256 of the raw bytes; "" when absent), the nth uuid4 hex
drawn, and the current UTC timestamp written into the marker. -/
structure ResyncEnv where
  download : Nat → Dict × String
  uuid : Nat → String
  now : String

/-- Observable outcome of `upload_manifest_resilient`: success flag,
op trace, marker state at exit, final local manifest content, the dict
moved onto the canonical remote name (if any), and the conflict-copy
object name (if any). -/
structure ResyncResult where
  ok : Bool
  trace : List MOp
  markerFinal : Bool
  localFile : Dict
  canonicalWrite : Option Dict
  conflictName : Option String
deriving Repr, DecidableEq

/-- The merge of `upload_manifest_resilient`:
`merged = {}` then `update(remote)`, `update(local)`, `update(extra)` —
later sources win on key collisions. -/
def mergeManifests (remoteE localE extraE : Dict) : Dict :=
  dictUpdate (dictUpdate (dictUpdate [] remoteE) localE) extraE

/-- The CAS retry loop (`while attempt < self.max_retries`).  `r` is the
remaining attempts, `aIdx` the index of the next uuid to draw, `dlIdx`
the index of the next download, `baseSha` the current base hash `H0`. -/
def casLoop (env : ResyncEnv) (localE extraE : Dict) :
    Nat → Nat → Nat → String → Dict → List MOp → ResyncResult
  | 0, aIdx, _, _, merged, tr =>
    let cname := "manifest.conflict." ++ env.uuid aIdx ++ ".csv"
    { ok := false, trace := tr ++ [MOp.copyto cname], markerFinal := false,
      localFile := merged, canonicalWrite := none, conflictName := some cname }
  | r + 1, aIdx, dlIdx, baseSha, merged, tr =>
    let tmpName := "manifest.csv." ++ env.uuid aIdx ++ ".tmp"
    let snap := env.download dlIdx
    if snap.2 = baseSha then
      { ok := true,
        trace := tr ++ [MOp.copyto tmpName, MOp.download,
          MOp.moveto tmpName manifest_remote_name_default],
        markerFinal := false, localFile := merged,
        canonicalWrite := some merged, conflictName := none }
    else
      casLoop env localE extraE r (aIdx + 1) (dlIdx + 1) snap.2
        (mergeManifests snap.1 localE extraE)
        (tr ++ [MOp.copyto tmpName, MOp.download, MOp.writeLocal])

/-- Shallow embedding of `upload_manifest_resilient(extra_entries)`:
write the marker, clean stale temp manifests, download the remote
manifest as baseline, merge and write locally, then run the CAS loop.
`localE` is the content of the local manifest file at entry, `extraE`
the extra entries (`{}` when `None`). -/
def upload_manifest_resilient (env : ResyncEnv) (maxRetries : Nat)
    (localE extraE : Dict) : ResyncResult :=
  let snap0 := env.download 0
  casLoop env localE extraE maxRetries 0 1 snap0.2
    (mergeManifests snap0.1 localE extraE)
    [MOp.marker env.now, MOp.cleanupTemps, MOp.download, MOp.writeLocal]

theorem casLoop_marker_false (env : ResyncEnv) (localE extraE : Dict) :
    ∀ (r aIdx dlIdx : Nat) (baseSha : String) (merged : Dict) (tr : List MOp),
    (casLoop env localE extraE r aIdx dlIdx baseSha merged tr).markerFinal = false := by
  intro r
  induction r with
  | zero => intro aIdx dlIdx baseSha merged tr; rfl
  | succ n ih =>
    intro aIdx dlIdx baseSha merged tr
    unfold casLoop
    by_cases hs : (env.download dlIdx).2 = baseSha
    · rw [if_pos hs]
    · rw [if_neg hs]
      exact ih (aIdx + 1) (dlIdx + 1) (env.download dlIdx).2 _ _

theorem casLoop_success_at (env : ResyncEnv) (localE extraE : Dict) :
    ∀ (j r aIdx dlPrev : Nat) (tr : List MOp),
    j < r →
    (env.download (dlPrev + j + 1)).2 = (env.download (dlPrev + j)).2 →
    (∀ i, i < j → (env.download (dlPrev + i + 1)).2 ≠ (env.download (dlPrev + i)).2) →
    ∃ tr2,
      casLoop env localE extraE r aIdx (dlPrev + 1) (env.download dlPrev).2
        (mergeManifests (env.download dlPrev).1 localE extraE) tr =
      { ok := true,
        trace := tr2 ++ [MOp.moveto ("manifest.csv." ++ env.uuid (aIdx + j) ++ ".tmp")
          manifest_remote_name_default],
        markerFinal := false,
        localFile := mergeManifests (env.download (dlPrev + j)).1 localE extraE,
        canonicalWrite := some (mergeManifests (env.download (dlPrev + j)).1 localE extraE),
        conflictName := none } := by
  intro j
  induction j with
  | zero =>
    intro r aIdx dlPrev tr hjr hagree _
    obtain ⟨r', rfl⟩ : ∃ r', r = r' + 1 := ⟨r - 1, by omega⟩
    simp only [Nat.add_zero] at hagree
    refine ⟨tr ++ [MOp.copyto ("manifest.csv." ++ env.uuid aIdx ++ ".tmp"), MOp.download], ?_⟩
    unfold casLoop
    rw [if_pos hagree]
    simp
  | succ j' ih =>
    intro r aIdx dlPrev tr hjr hagree hmis
    obtain ⟨r', rfl⟩ : ∃ r', r = r' + 1 := ⟨r - 1, by omega⟩
    have hmis0 : (env.download (dlPrev + 0 + 1)).2 ≠ (env.download (dlPrev + 0)).2 :=
      hmis 0 (by omega)
    simp only [Nat.add_zero] at hmis0
    unfold casLoop
    rw [if_neg hmis0]
    have hagree2 : (env.download (dlPrev + 1 + j' + 1)).2 = (env.download (dlPrev + 1 + j')).2 := by
      have e1 : dlPrev + 1 + j' = dlPrev + (j' + 1) := by omega
      rw [e1]
      exact hagree
    have hmis2 : ∀ i, i < j' →
        (env.download (dlPrev + 1 + i + 1)).2 ≠ (env.download (dlPrev + 1 + i)).2 := by
      intro i hi
      have e1 : dlPrev + 1 + i = dlPrev + (i + 1) := by omega
      rw [e1]
      exact hmis (i + 1) (by omega)
    obtain ⟨tr2, htr⟩ := ih r' (aIdx + 1) (dlPrev + 1)
      (tr ++ [MOp.copyto ("manifest.csv." ++ env.uuid aIdx ++ ".tmp"), MOp.download,
        MOp.writeLocal])
      (by omega) hagree2 hmis2
    refine ⟨tr2, ?_⟩
    rw [htr]
    have e3 : aIdx + 1 + j' = aIdx + (j' + 1) := by omega
    have e4 : dlPrev + 1 + j' = dlPrev + (j' + 1) := by omega
    rw [e3, e4]

theorem casLoop_conflict (env : ResyncEnv) (localE extraE : Dict) :
    ∀ (r aIdx dlPrev : Nat) (tr : List MOp),
    (∀ i, i < r → (env.download (dlPrev + i + 1)).2 ≠ (env.download (dlPrev + i)).2) →
    ∃ steps merged2,
      casLoop env localE extraE r aIdx (dlPrev + 1) (env.download dlPrev).2
        (mergeManifests (env.download dlPrev).1 localE extraE) tr =
      { ok := false,
        trace := tr ++ steps,
        markerFinal := false,
        localFile := merged2,
        canonicalWrite := none,
        conflictName := some ("manifest.conflict." ++ env.uuid (aIdx + r) ++ ".csv") } ∧
      (∀ s d, MOp.moveto s d ∉ steps) := by
  intro r
  induction r with
  | zero =>
    intro aIdx dlPrev tr _
    refine ⟨[MOp.copyto ("manifest.conflict." ++ env.uuid aIdx ++ ".csv")],
      mergeManifests (env.download dlPrev).1 localE extraE, rfl, ?_⟩
    intro s d hmem
    simp at hmem
  | succ r' ih =>
    intro aIdx dlPrev tr hmis
    have hmis0 : (env.download (dlPrev + 0 + 1)).2 ≠ (env.download (dlPrev + 0)).2 :=
      hmis 0 (by omega)
    simp only [Nat.add_zero] at hmis0
    unfold casLoop
    rw [if_neg hmis0]
    have hmis2 : ∀ i, i < r' →
        (env.download (dlPrev + 1 + i + 1)).2 ≠ (env.download (dlPrev + 1 + i)).2 := by
      intro i hi
      have e1 : dlPrev + 1 + i = dlPrev + (i + 1) := by omega
      rw [e1]
      exact hmis (i + 1) (by omega)
    obtain ⟨steps, merged2, heq, hnomove⟩ := ih (aIdx + 1) (dlPrev + 1)
      (tr ++ [MOp.copyto ("manifest.csv." ++ env.uuid aIdx ++ ".tmp"), MOp.download,
        MOp.writeLocal]) hmis2
    refine ⟨[MOp.copyto ("manifest.csv." ++ env.uuid aIdx ++ ".tmp"), MOp.download,
      MOp.writeLocal] ++ steps, merged2, ?_, ?_⟩
    · rw [heq]
      have e3 : aIdx + 1 + r' = aIdx + (r' + 1) := by omega
      rw [e3, List.append_assoc]
    · intro s d hmem
      rcases List.mem_append.mp hmem with h1 | h2
      · simp at h1
      · exact hnomove s d h2

/-- C1 (amended): each attempt uploads the merge to a fresh
`manifest.csv.<uuid>.tmp`, re-downloads the remote manifest and compares
its hash with the baseline `H0`; on equality the temp object is renamed
onto the canonical manifest name; on inequality the merge is recomputed
with the new snapshot as the new base, up to the configured bound
(default 3); after exhausting retries the merge is uploaded once as a
uniquely named `manifest.conflict.<uuid>.csv` object — a random uuid
name, not a timestamped one — and the canonical manifest is never
renamed onto; the in-progress marker is removed on every exit path. -/
theorem upload_manifest_resilient_cas
    (env : ResyncEnv) (maxR : Nat) (localE extraE : Dict) :
    (upload_manifest_resilient env maxR localE extraE).markerFinal = false ∧
    max_manifest_conflict_retries_default = 3 ∧
    (∀ j, j < maxR → (env.download (j + 1)).2 = (env.download j).2 →
      (∀ i, i < j → (env.download (i + 1)).2 ≠ (env.download i).2) →
      (upload_manifest_resilient env maxR localE extraE).ok = true ∧
      (upload_manifest_resilient env maxR localE extraE).canonicalWrite
        = some (mergeManifests (env.download j).1 localE extraE) ∧
      (upload_manifest_resilient env maxR localE extraE).conflictName = none ∧
      (upload_manifest_resilient env maxR localE extraE).trace.getLast?
        = some (MOp.moveto ("manifest.csv." ++ env.uuid j ++ ".tmp")
            manifest_remote_name_default)) ∧
    ((∀ i, i < maxR → (env.download (i + 1)).2 ≠ (env.download i).2) →
      (upload_manifest_resilient env maxR localE extraE).ok = false ∧
      (upload_manifest_resilient env maxR localE extraE).conflictName
        = some ("manifest.conflict." ++ env.uuid maxR ++ ".csv") ∧
      (upload_manifest_resilient env maxR localE extraE).canonicalWrite = none ∧
      (∀ s d, MOp.moveto s d ∉ (upload_manifest_resilient env maxR localE extraE).trace)) := by
  have hcall : upload_manifest_resilient env maxR localE extraE =
      casLoop env localE extraE maxR 0 (0 + 1) (env.download 0).2
        (mergeManifests (env.download 0).1 localE extraE)
        [MOp.marker env.now, MOp.cleanupTemps, MOp.download, MOp.writeLocal] := rfl
  refine ⟨?_, rfl, ?_, ?_⟩
  · rw [hcall]
    exact casLoop_marker_false env localE extraE maxR 0 (0 + 1) _ _ _
  · intro j hj hagree hmis
    have hagree1 : (env.download (0 + j + 1)).2 = (env.download (0 + j)).2 := by
      simpa using hagree
    have hmis1 : ∀ i, i < j → (env.download (0 + i + 1)).2 ≠ (env.download (0 + i)).2 := by
      intro i hi
      simpa using hmis i hi
    obtain ⟨tr2, heq⟩ := casLoop_success_at env localE extraE j maxR 0 0
      [MOp.marker env.now, MOp.cleanupTemps, MOp.download, MOp.writeLocal]
      hj hagree1 hmis1
    rw [hcall, heq]
    have e2 : 0 + j = j := by omega
    rw [e2]
    refine ⟨rfl, rfl, rfl, ?_⟩
    simp [List.getLast?_concat]
  · intro hmis
    have hmis1 : ∀ i, i < maxR → (env.download (0 + i + 1)).2 ≠ (env.download (0 + i)).2 := by
      intro i hi
      simpa using hmis i hi
    obtain ⟨steps, merged2, heq, hnomove⟩ := casLoop_conflict env localE extraE maxR 0 0
      [MOp.marker env.now, MOp.cleanupTemps, MOp.download, MOp.writeLocal] hmis1
    rw [hcall, heq]
    have e3 : 0 + maxR = maxR := by omega
    rw [e3]
    refine ⟨rfl, rfl, rfl, ?_⟩
    intro s d hmem
    rcases List.mem_append.mp hmem with h1 | h2
    · simp at h1
    · exact hnomove s d h2

/-- Witness for C1: a quiescent remote (no concurrent writer), one entry
in the queue snapshot; the first CAS attempt succeeds and renames the
temp object onto the canonical name. -/
theorem upload_manifest_resilient_cas_witness :
    ((0 : Nat) < 3 ∧
      ((ResyncEnv.mk (fun _ => ([("a", "h")], "s")) (fun _ => "u") "t").download 1).2
        = ((ResyncEnv.mk (fun _ => ([("a", "h")], "s")) (fun _ => "u") "t").download 0).2) ∧
    ((upload_manifest_resilient (ResyncEnv.mk (fun _ => ([("a", "h")], "s")) (fun _ => "u") "t")
        3 [("b", "h2")] [("c", "h3")]).ok = true ∧
      (upload_manifest_resilient (ResyncEnv.mk (fun _ => ([("a", "h")], "s")) (fun _ => "u") "t")
        3 [("b", "h2")] [("c", "h3")]).canonicalWrite
        = some (mergeManifests [("a", "h")] [("b", "h2")] [("c", "h3")])) :=
  ⟨⟨by omega, rfl⟩,
    ⟨((upload_manifest_resilient_cas
        (ResyncEnv.mk (fun _ => ([("a", "h")], "s")) (fun _ => "u") "t")
        3 [("b", "h2")] [("c", "h3")]).2.2.1 0 (by omega) rfl
        (fun i hi => absurd hi (by omega))).1,
      ((upload_manifest_resilient_cas
        (ResyncEnv.mk (fun _ => ([("a", "h")], "s")) (fun _ => "u") "t")
        3 [("b", "h2")] [("c", "h3")]).2.2.1 0 (by omega) rfl
        (fun i hi => absurd hi (by omega))).2.1⟩⟩

/-- C1 counterexample: two runs that exhaust their retries and differ
only in the marker timestamp produce the identical conflict-copy name —
the conflict object name is a random uuid name and carries no timestamp,
so the claim's "timestamped ... conflict-copy object" is false. -/
theorem conflict_copy_not_timestamped_counterexample :
    (upload_manifest_resilient
        (ResyncEnv.mk (fun n => ([], toString n)) (fun _ => "cafe")
          "2026-01-01T00:00:00+00:00") 3 [] []).conflictName
      = (upload_manifest_resilient
        (ResyncEnv.mk (fun n => ([], toString n)) (fun _ => "cafe")
          "2026-02-02T00:00:00+00:00") 3 [] []).conflictName ∧
    (upload_manifest_resilient
        (ResyncEnv.mk (fun n => ([], toString n)) (fun _ => "cafe")
          "2026-01-01T00:00:00+00:00") 3 [] []).conflictName
      = some "manifest.conflict.cafe.csv" ∧
    ("2026-01-01T00:00:00+00:00" : String) ≠ "2026-02-02T00:00:00+00:00" := by
  refine ⟨by decide, by decide, by decide⟩

/-! ## ManifestQueue durability (manifest.py, lines 71-119 and 248-266)

Durable state of a `ManifestManager`: the in-memory queue, the
`manifest.queue.json` dump file, and the local `manifest.csv` content.
`queue_entry` adds under the lock and persists the whole queue snapshot
before returning (a failed persist is caught and only logged).
`restore_queue` loads the dump back and deletes it.
`upload_manifest_if_needed` snapshots-and-clears the queue and deletes
the dump inside the lock, then calls `upload_manifest_resilient` with the
snapshot outside the lock. -/

structure MMState where
  queue : Dict
  dumpFile : Option Dict
  localManifest : Dict
deriving Repr, DecidableEq

/-- Shallow embedding of `queue_entry(remote_path, sha256_hash)`:
insert into the in-memory queue, then persist the whole queue to the dump
file; `persistOk` injects the outcome of `write_json_atomic` (an
exception there is swallowed with a warning). -/
def queue_entry (st : MMState) (k v : String) (persistOk : Bool) : MMState :=
  let q := dictSet st.queue k v
  { st with queue := q, dumpFile := if persistOk then some q else st.dumpFile }

/-- A hard process kill: all in-memory state is lost, durable files
survive.  (Crash model, not source code.) -/
def hardKill (st : MMState) : MMState :=
  { st with queue := [] }

/-- Shallow embedding of `restore_queue`: merge the dump file into the
in-memory queue and delete the dump. -/
def restore_queue (st : MMState) : MMState :=
  match st.dumpFile with
  | none => st
  | some d => { st with queue := dictUpdate st.queue d, dumpFile := none }

/-- The `with self._lock` block of `upload_manifest_if_needed`: when the
queue is non-empty, snapshot it, clear it, and delete the dump file; the
snapshot is returned for the upload that happens after the lock is
released. -/
def upload_manifest_if_needed_lockPhase (st : MMState) : MMState × Option Dict :=
  if st.queue = [] then (st, none)
  else ({ st with queue := [], dumpFile := none }, some st.queue)

/-- Shallow embedding of `upload_manifest_if_needed`: the lock phase,
then — outside the lock — `upload_manifest_resilient` with the snapshot
as extra entries; the merged manifest is written to the local file during
that call. -/
def upload_manifest_if_needed (env : ResyncEnv) (maxRetries : Nat)
    (st : MMState) : MMState × Option ResyncResult :=
  match upload_manifest_if_needed_lockPhase st with
  | (st1, none) => (st1, none)
  | (st1, some snap) =>
    let res := upload_manifest_resilient env maxRetries st1.localManifest snap
    ({ st1 with localManifest := res.localFile }, some res)

/-- C4 (amended): an entry added by `queue_entry` is persisted to the
dump file before the call returns whenever the snapshot write succeeds,
so a hard kill right after the call followed by the startup recovery path
restores the entry into the in-memory queue; but entries are removed from
the in-memory queue (and the dump deleted) at the moment a flush
snapshots-and-clears the queue — before `upload_manifest_resilient` has
durably incorporated them, not after. -/
theorem queue_entry_durability_and_flush_clear (st : MMState) (k v : String)
    (hq : st.queue ≠ []) :
    (restore_queue (hardKill (queue_entry st k v true))).queue.lookup k = some v ∧
    (upload_manifest_if_needed_lockPhase st).1.queue = [] ∧
    (upload_manifest_if_needed_lockPhase st).1.dumpFile = none ∧
    (upload_manifest_if_needed_lockPhase st).2 = some st.queue := by
  refine ⟨?_, ?_, ?_, ?_⟩
  · show (dictUpdate [] (dictSet st.queue k v)).lookup k = some v
    exact lookup_dictUpdate_keyval [] (dictSet st.queue k v) k v
      (dictSet_exists_key st.queue k v) (dictSet_keyval st.queue k v)
  · unfold upload_manifest_if_needed_lockPhase
    rw [if_neg hq]
  · unfold upload_manifest_if_needed_lockPhase
    rw [if_neg hq]
  · unfold upload_manifest_if_needed_lockPhase
    rw [if_neg hq]

/-- Witness for C4 at a concrete input: queue one entry with a
successful persist; the kill-and-recover path restores it, and the lock
phase of a flush clears queue and dump. -/
theorem queue_entry_durability_and_flush_clear_witness :
    ((MMState.mk [("q0", "h0")] none []).queue ≠ []) ∧
    ((restore_queue (hardKill (queue_entry (MMState.mk [("q0", "h0")] none [])
        "p" "h" true))).queue.lookup "p" = some "h" ∧
      (upload_manifest_if_needed_lockPhase (MMState.mk [("q0", "h0")] none [])).1.queue = []) :=
  ⟨by decide,
    ⟨(queue_entry_durability_and_flush_clear (MMState.mk [("q0", "h0")] none [])
        "p" "h" (by decide)).1,
      (queue_entry_durability_and_flush_clear (MMState.mk [("q0", "h0")] none [])
        "p" "h" (by decide)).2.1⟩⟩

/-- C4 counterexample: right after the flush's lock phase (still before
`upload_manifest_resilient` runs) the freshly queued entry is gone from
the in-memory queue while it is recorded nowhere durable — the dump file
is deleted and the local manifest does not contain it — so a hard kill at
this point loses it and recovery does not restore it.  This refutes
"entries are removed from the in-memory queue only after a manifest
flush has durably incorporated them". -/
theorem queue_cleared_before_durable_incorporation_counterexample :
    ((upload_manifest_if_needed_lockPhase
        (queue_entry (MMState.mk [] none []) "p" "h" true)).1.queue = []) ∧
    ((upload_manifest_if_needed_lockPhase
        (queue_entry (MMState.mk [] none []) "p" "h" true)).1.dumpFile = none) ∧
    ((upload_manifest_if_needed_lockPhase
        (queue_entry (MMState.mk [] none []) "p" "h" true)).1.localManifest.lookup "p"
      = none) ∧
    ((restore_queue (hardKill (upload_manifest_if_needed_lockPhase
        (queue_entry (MMState.mk [] none []) "p" "h" true)).1)).queue.lookup "p"
      = none) := by
  refine ⟨by decide, by decide, by decide, by decide⟩

/-! ## TaskExecutionEngine: `ManagedThreadPoolExecutor.map`
(mailbackup/executor.py, lines 191-319)

`map` first submits every item, checking the interrupt flag before each
submission and breaking out when set; `submit` itself re-checks the flag
and raises `InterruptedError` when set.  It then collects results with
`as_completed`, checking the flag before consuming each completed future
and breaking out when set; a task's `InterruptedError`/`Exception` is
converted into a failed `TaskResult`, while a `KeyboardInterrupt`
escaping a task propagates (the outer handler sets the flag and
re-raises).  After appending each `TaskResult`, `increment_callback` is
invoked unconditionally — calling `None` raises `TypeError`.

Deterministic embedding of the concurrency: the local-or-global flag
reads are numbered in program order and their values given by a schedule;
a monotone schedule (the flags are only ever set during a run) is
`flagAfter k`: false for the first `k` reads, true afterwards.  The order
in which futures complete is an input list of indices into the submitted
list; what `future.result()` yields per item is given by `fnOut`. -/

/-- What `future.result()` does for a task: return a value, raise
`InterruptedError` (the task saw the flag), raise an ordinary
`Exception` with a message, or raise `KeyboardInterrupt`. -/
inductive TaskOutcome (β : Type) where
  | ok (r : β)
  | interruptedErr
  | exc (msg : String)
  | kbInterrupt
deriving DecidableEq, Repr

/-- Source dataclass `TaskResult`: success flag, result, exception
(modelled by its message), original item. -/
structure TaskResult (α β : Type) where
  success : Bool
  result : Option β
  exception : Option String
  item : Option α
deriving DecidableEq, Repr

/-- Python exceptions that can escape `map`. -/
inductive PyExc where
  | interruptedError
  | keyboardInterrupt
  | typeError
deriving DecidableEq, Repr

/-- Monotone interrupt schedule: the flag reads false for the first `k`
checks and true from the `k`-th check on (`none`: never interrupted). -/
def flagAfter (k : Option Nat) (c : Nat) : Bool :=
  match k with
  | none => false
  | some k0 => decide (k0 ≤ c)

/-- The submission loop of `map` (lines 259-266) fused with `submit`'s
own flag check (lines 209-210): per item, check the flag (break on true,
returning the items submitted so far), then `submit` re-checks the flag
(raising `InterruptedError` on true).  Returns the submitted prefix and
the next check number. -/
def submitPhase (flagAt : Nat → Bool) : List α → Nat → Except PyExc (List α × Nat)
  | [], c => Except.ok ([], c)
  | x :: xs, c =>
    if flagAt c then Except.ok ([], c + 1)
    else if flagAt (c + 1) then Except.error PyExc.interruptedError
    else
      match submitPhase flagAt xs (c + 2) with
      | Except.ok (rest, cEnd) => Except.ok (x :: rest, cEnd)
      | Except.error e => Except.error e

/-- The `TaskResult` built for one collected future (lines 277-297). -/
def taskResultOf (item : α) : TaskOutcome β → TaskResult α β
  | TaskOutcome.ok r => ⟨true, some r, none, some item⟩
  | TaskOutcome.interruptedErr => ⟨false, none, some "Task was interrupted", some item⟩
  | TaskOutcome.exc m => ⟨false, none, some m, some item⟩
  | TaskOutcome.kbInterrupt => ⟨false, none, none, some item⟩

/-- The collection loop of `map` (lines 269-317): for each future in
completion order, check the flag (break on true, returning what was
collected), take the task's outcome (`KeyboardInterrupt` propagates out
of `map`), append the `TaskResult`, then call the callback — which is
`TypeError` when no callable was supplied. -/
def collectPhase (fnOut : α → TaskOutcome β) (submitted : List α)
    (flagAt : Nat → Bool) (cb : Bool) :
    List Nat → Nat → Except PyExc (List (TaskResult α β))
  | [], _ => Except.ok []
  | i :: rest, c =>
    if flagAt c then Except.ok []
    else
      match submitted[i]? with
      | none => Except.ok []
      | some item =>
        match fnOut item with
        | TaskOutcome.kbInterrupt => Except.error PyExc.keyboardInterrupt
        | out =>
          if cb then
            match collectPhase fnOut submitted flagAt cb rest (c + 1) with
            | Except.ok l => Except.ok (taskResultOf item out :: l)
            | Except.error e => Except.error e
          else Except.error PyExc.typeError

/-- Shallow embedding of `ManagedThreadPoolExecutor.map(fn, items,
increment_callback)`: empty input returns immediately; otherwise submit
then collect.  `cb` records whether a callable `increment_callback` was
supplied. -/
def ManagedThreadPoolExecutor.map (fnOut : α → TaskOutcome β) (items : List α)
    (flagAt : Nat → Bool) (order : List Nat) (cb : Bool) :
    Except PyExc (List (TaskResult α β)) :=
  if items.length = 0 then Except.ok []
  else
    match submitPhase flagAt items 0 with
    | Except.error e => Except.error e
    | Except.ok (submitted, c) => collectPhase fnOut submitted flagAt cb order c

/-- The results `map` returns for a given completion order: one
`TaskResult` per collected future, in completion order. -/
def resultsFor (fnOut : α → TaskOutcome β) (submitted : List α)
    (order : List Nat) : List (TaskResult α β) :=
  order.filterMap (fun i => (submitted[i]?).map (fun it => taskResultOf it (fnOut it)))

theorem submitPhase_all (flagAt : Nat → Bool) :
    ∀ (l : List α) (c0 : Nat),
    (∀ c', c' < c0 + 2 * l.length → flagAt c' = false) →
    submitPhase flagAt l c0 = Except.ok (l, c0 + 2 * l.length) := by
  intro l
  induction l with
  | nil => intro c0 _; rfl
  | cons x xs ih =>
    intro c0 hflag
    have h0 : flagAt c0 = false := hflag c0 (by rw [List.length_cons]; omega)
    have h1 : flagAt (c0 + 1) = false := hflag (c0 + 1) (by rw [List.length_cons]; omega)
    have hrec := ih (c0 + 2) (fun c' hc' => hflag c' (by rw [List.length_cons]; omega))
    unfold submitPhase
    rw [h0, h1]
    simp only [Bool.false_eq_true, if_neg, if_false]
    rw [hrec]
    have e : c0 + 2 + 2 * xs.length = c0 + 2 * (x :: xs).length := by
      rw [List.length_cons]; omega
    rw [e]

theorem submitPhase_raise_at (flagAt : Nat → Bool) :
    ∀ (l : List α) (c0 i : Nat), i < l.length →
    (∀ c', c' < c0 + 2 * i + 1 → flagAt c' = false) →
    flagAt (c0 + 2 * i + 1) = true →
    submitPhase flagAt l c0 = Except.error PyExc.interruptedError := by
  intro l
  induction l with
  | nil => intro c0 i hi; simp at hi
  | cons x xs ih =>
    intro c0 i hi hbefore hat
    cases i with
    | zero =>
      have h0 : flagAt c0 = false := hbefore c0 (by omega)
      have h1 : flagAt (c0 + 1) = true := by
        have e : c0 + 2 * 0 + 1 = c0 + 1 := by omega
        rw [e] at hat
        exact hat
      unfold submitPhase
      rw [h0, h1]
      simp
    | succ i' =>
      have h0 : flagAt c0 = false := hbefore c0 (by omega)
      have h1 : flagAt (c0 + 1) = false := hbefore (c0 + 1) (by omega)
      have hrec := ih (c0 + 2) i' (by rw [List.length_cons] at hi; omega)
        (fun c' hc' => hbefore c' (by omega)) (by
          have e : c0 + 2 + 2 * i' + 1 = c0 + 2 * (i' + 1) + 1 := by omega
          rw [e]
          exact hat)
      unfold submitPhase
      rw [h0, h1]
      simp only [Bool.false_eq_true, if_neg, if_false]
      rw [hrec]

theorem submitPhase_break_at (flagAt : Nat → Bool) :
    ∀ (l : List α) (c0 i : Nat), i < l.length →
    (∀ c', c' < c0 + 2 * i → flagAt c' = false) →
    flagAt (c0 + 2 * i) = true →
    submitPhase flagAt l c0 = Except.ok (l.take i, c0 + 2 * i + 1) := by
  intro l
  induction l with
  | nil => intro c0 i hi; simp at hi
  | cons x xs ih =>
    intro c0 i hi hbefore hat
    cases i with
    | zero =>
      have h0 : flagAt c0 = true := by
        have e : c0 + 2 * 0 = c0 := by omega
        rw [e] at hat
        exact hat
      unfold submitPhase
      rw [h0]
      simp
    | succ i' =>
      have h0 : flagAt c0 = false := hbefore c0 (by omega)
      have h1 : flagAt (c0 + 1) = false := hbefore (c0 + 1) (by omega)
      have hrec := ih (c0 + 2) i' (by rw [List.length_cons] at hi; omega)
        (fun c' hc' => hbefore c' (by omega)) (by
          have e : c0 + 2 + 2 * i' = c0 + 2 * (i' + 1) := by omega
          rw [e]
          exact hat)
      unfold submitPhase
      rw [h0, h1]
      simp only [Bool.false_eq_true, if_neg, if_false]
      rw [hrec]
      have e : c0 + 2 + 2 * i' + 1 = c0 + 2 * (i' + 1) + 1 := by omega
      rw [e]
      rfl

theorem collectPhase_all (fnOut : α → TaskOutcome β) (submitted : List α)
    (flagAt : Nat → Bool) :
    ∀ (order : List Nat) (c : Nat),
    (∀ n, flagAt n = false) →
    (∀ i ∈ order, i < submitted.length) →
    (∀ a ∈ submitted, fnOut a ≠ TaskOutcome.kbInterrupt) →
    collectPhase fnOut submitted flagAt true order c
      = Except.ok (resultsFor fnOut submitted order) := by
  intro order
  induction order with
  | nil => intro c _ _ _; rfl
  | cons i rest ih =>
    intro c hflag hvalid hnokb
    have hi : i < submitted.length := hvalid i (by simp)
    have hget : submitted[i]? = some (submitted[i]) := List.getElem?_eq_getElem hi
    have hmem : submitted[i] ∈ submitted := List.getElem_mem hi
    have hrec := ih (c + 1) hflag (fun n hn => hvalid n (by simp [hn])) hnokb
    have hkb := hnokb _ hmem
    unfold collectPhase
    rw [hflag c]
    simp only [Bool.false_eq_true, if_false]
    rw [hget]
    cases hout : fnOut (submitted[i]) with
    | kbInterrupt => exact absurd hout hkb
    | ok r =>
      simp only [if_pos]
      rw [hrec]
      simp [resultsFor, List.filterMap_cons, hget, hout]
    | interruptedErr =>
      simp only [if_pos]
      rw [hrec]
      simp [resultsFor, List.filterMap_cons, hget, hout]
    | exc m =>
      simp only [if_pos]
      rw [hrec]
      simp [resultsFor, List.filterMap_cons, hget, hout]

theorem collectPhase_take (fnOut : α → TaskOutcome β) (submitted : List α) (K : Nat) :
    ∀ (order : List Nat) (c : Nat),
    (∀ i ∈ order, i < submitted.length) →
    (∀ a ∈ submitted, fnOut a ≠ TaskOutcome.kbInterrupt) →
    collectPhase fnOut submitted (flagAfter (some K)) true order c
      = Except.ok (resultsFor fnOut submitted (order.take (K - c))) := by
  intro order
  induction order with
  | nil =>
    intro c _ _
    rw [List.take_nil]
    rfl
  | cons i rest ih =>
    intro c hvalid hnokb
    by_cases hK : K ≤ c
    · have hflag : flagAfter (some K) c = true := by simp [flagAfter]; omega
      have e : K - c = 0 := by omega
      unfold collectPhase
      rw [hflag, e]
      simp [resultsFor]
    · have hflag : flagAfter (some K) c = false := by simp [flagAfter]; omega
      have hi : i < submitted.length := hvalid i (by simp)
      have hget : submitted[i]? = some (submitted[i]) := List.getElem?_eq_getElem hi
      have hmem : submitted[i] ∈ submitted := List.getElem_mem hi
      have hrec := ih (c + 1) (fun n hn => hvalid n (by simp [hn])) hnokb
      have hkb := hnokb _ hmem
      have e : K - c = (K - (c + 1)) + 1 := by omega
      unfold collectPhase
      rw [hflag]
      simp only [Bool.false_eq_true, if_false]
      rw [hget, e]
      cases hout : fnOut (submitted[i]) with
      | kbInterrupt => exact absurd hout hkb
      | ok r =>
        simp only [if_pos]
        rw [hrec]
        simp [resultsFor, List.filterMap_cons, hget, hout, List.take_succ_cons]
      | interruptedErr =>
        simp only [if_pos]
        rw [hrec]
        simp [resultsFor, List.filterMap_cons, hget, hout, List.take_succ_cons]
      | exc m =>
        simp only [if_pos]
        rw [hrec]
        simp [resultsFor, List.filterMap_cons, hget, hout, List.take_succ_cons]

/-- C8 (amended): with a callable callback and tasks that do not raise
`KeyboardInterrupt`, under any monotone interrupt schedule: never
interrupted, `map` submits all items and returns one `TaskResult` per
item in completion order; interrupted after `j` collections, it returns
exactly the first `j` completed results without raising; interrupted at a
submission-loop check, it stops submitting early and returns normally
(with the results collected before the flag, here none); but interrupted
between the submission loop's check and `submit`'s own re-check,
`InterruptedError` escapes `map` — the one exception to the
"no exception" contract. -/
theorem map_interrupt_contract (α β : Type) (fnOut : α → TaskOutcome β)
    (items : List α) (order : List Nat)
    (hvalid : ∀ n ∈ order, n < items.length)
    (hnokb : ∀ a ∈ items, fnOut a ≠ TaskOutcome.kbInterrupt) :
    (ManagedThreadPoolExecutor.map fnOut items (flagAfter none) order true
        = Except.ok (resultsFor fnOut items order) ∧
      (resultsFor fnOut items order).length = order.length) ∧
    (∀ j, ManagedThreadPoolExecutor.map fnOut items
        (flagAfter (some (2 * items.length + j))) order true
      = Except.ok (resultsFor fnOut items (order.take j))) ∧
    (∀ i, i < items.length →
      ManagedThreadPoolExecutor.map fnOut items (flagAfter (some (2 * i))) order true
        = Except.ok []) ∧
    (∀ i, i < items.length →
      ManagedThreadPoolExecutor.map fnOut items (flagAfter (some (2 * i + 1))) order true
        = Except.error PyExc.interruptedError) := by
  have hlenres : ∀ ord : List Nat, (∀ n ∈ ord, n < items.length) →
      (resultsFor fnOut items ord).length = ord.length := by
    intro ord
    induction ord with
    | nil => intro _; rfl
    | cons i rest ih =>
      intro hv
      have hi : i < items.length := hv i (by simp)
      have hget : items[i]? = some (items[i]) := List.getElem?_eq_getElem hi
      unfold resultsFor
      rw [List.filterMap_cons, hget]
      simp only [Option.map_some', List.length_cons]
      have := ih (fun n hn => hv n (by simp [hn]))
      unfold resultsFor at this
      omega
  refine ⟨⟨?_, hlenres order hvalid⟩, ?_, ?_, ?_⟩
  · by_cases hn : items.length = 0
    · have hitems : items = [] := List.length_eq_zero.mp hn
      subst hitems
      have horder : order = [] := by
        cases order with
        | nil => rfl
        | cons a t => exact absurd (hvalid a (by simp)) (by simp)
      subst horder
      rfl
    · unfold ManagedThreadPoolExecutor.map
      rw [if_neg hn]
      rw [submitPhase_all (flagAfter none) items 0 (fun c' _ => rfl)]
      exact collectPhase_all fnOut items (flagAfter none) order (0 + 2 * items.length)
        (fun n => rfl) hvalid hnokb
  · intro j
    by_cases hn : items.length = 0
    · have hitems : items = [] := List.length_eq_zero.mp hn
      subst hitems
      have horder : order = [] := by
        cases order with
        | nil => rfl
        | cons a t => exact absurd (hvalid a (by simp)) (by simp)
      subst horder
      simp [ManagedThreadPoolExecutor.map, resultsFor]
    · unfold ManagedThreadPoolExecutor.map
      rw [if_neg hn]
      rw [submitPhase_all (flagAfter (some (2 * items.length + j))) items 0
        (fun c' hc' => by simp [flagAfter]; omega)]
      have hcol := collectPhase_take fnOut items (2 * items.length + j) order
        (0 + 2 * items.length) hvalid hnokb
      have e : 2 * items.length + j - (0 + 2 * items.length) = j := by omega
      rw [e] at hcol
      exact hcol
  · intro i hi
    have hn : ¬ items.length = 0 := by omega
    unfold ManagedThreadPoolExecutor.map
    rw [if_neg hn]
    rw [submitPhase_break_at (flagAfter (some (2 * i))) items 0 i hi
      (fun c' hc' => by simp [flagAfter]; omega)
      (by simp [flagAfter])]
    cases order with
    | nil => rfl
    | cons o ot =>
      have hflag : flagAfter (some (2 * i)) (0 + 2 * i + 1) = true := by
        simp [flagAfter]
      show collectPhase fnOut (items.take i) (flagAfter (some (2 * i))) true
        (o :: ot) (0 + 2 * i + 1) = Except.ok []
      unfold collectPhase
      rw [hflag]
      simp
  · intro i hi
    have hn : ¬ items.length = 0 := by omega
    unfold ManagedThreadPoolExecutor.map
    rw [if_neg hn]
    rw [submitPhase_raise_at (flagAfter (some (2 * i + 1))) items 0 i hi
      (fun c' hc' => by simp [flagAfter]; omega)
      (by simp [flagAfter])]

/-- Witness for C8 at a concrete input: two items collected in reverse
completion order with no interruption, and the same call interrupted
after one collection returning exactly the first completed result. -/
theorem map_interrupt_contract_witness :
    ((∀ n ∈ [1, 0], n < ([true, false] : List Bool).length) ∧
      (∀ a ∈ ([true, false] : List Bool),
        TaskOutcome.ok a ≠ TaskOutcome.kbInterrupt)) ∧
    (ManagedThreadPoolExecutor.map (fun a => TaskOutcome.ok a) [true, false]
        (flagAfter none) [1, 0] true
      = Except.ok (resultsFor (fun a => TaskOutcome.ok a) [true, false] [1, 0]) ∧
      ManagedThreadPoolExecutor.map (fun a => TaskOutcome.ok a) [true, false]
        (flagAfter (some (2 * ([true, false] : List Bool).length + 1))) [1, 0] true
      = Except.ok (resultsFor (fun a => TaskOutcome.ok a) [true, false]
          ([1, 0].take 1))) :=
  ⟨⟨by decide, by decide⟩,
    ⟨(map_interrupt_contract Bool Bool (fun a => TaskOutcome.ok a) [true, false]
        [1, 0] (by decide) (by decide)).1.1,
      (map_interrupt_contract Bool Bool (fun a => TaskOutcome.ok a) [true, false]
        [1, 0] (by decide) (by decide)).2.1 1⟩⟩

/-- C8 counterexample: an interruption arriving between the submission
loop's flag check and `submit`'s own re-check makes `InterruptedError`
escape `map`, instead of submission stopping early with the
already-completed results returned; the claim's "submission stops early
... without an exception being raised out of Map" is false for this
schedule. -/
theorem map_raises_on_submit_window_counterexample :
    ManagedThreadPoolExecutor.map (fun _ : Unit => TaskOutcome.ok (0 : Nat)) [()]
        (flagAfter (some 1)) [0] true = Except.error PyExc.interruptedError ∧
    (1 : Nat) < 2 * ([()] : List Unit).length := by
  refine ⟨rfl, by decide⟩

/-- C10: entered as a context manager with a non-empty item list and no
interruption, `map` called without an `increment_callback` (its default
`None`) raises `TypeError` as soon as the first completed future's
result is collected — the callback is invoked unconditionally per
collected result — while the identical call with a callable callback
runs to completion and returns one `TaskResult` per item. -/
theorem map_without_callback_raises_TypeError (α β : Type)
    (fnOut : α → TaskOutcome β) (items : List α) (order : List Nat)
    (i : Nat) (rest : List Nat) (horder : order = i :: rest)
    (hvalid : ∀ n ∈ order, n < items.length)
    (hnokb : ∀ a ∈ items, fnOut a ≠ TaskOutcome.kbInterrupt) :
    ManagedThreadPoolExecutor.map fnOut items (flagAfter none) order false
      = Except.error PyExc.typeError ∧
    ManagedThreadPoolExecutor.map fnOut items (flagAfter none) order true
      = Except.ok (resultsFor fnOut items order) := by
  subst horder
  have hi : i < items.length := hvalid i (by simp)
  have hn : ¬ items.length = 0 := by omega
  have hget : items[i]? = some (items[i]) := List.getElem?_eq_getElem hi
  have hmem : items[i] ∈ items := List.getElem_mem hi
  have hkb := hnokb _ hmem
  constructor
  · unfold ManagedThreadPoolExecutor.map
    rw [if_neg hn]
    rw [submitPhase_all (flagAfter none) items 0 (fun c' _ => rfl)]
    unfold collectPhase
    rw [show flagAfter none (0 + 2 * items.length) = false from rfl]
    simp only [Bool.false_eq_true, if_false]
    rw [hget]
    cases hout : fnOut (items[i]) with
    | kbInterrupt => exact absurd hout hkb
    | ok r => simp [hout]
    | interruptedErr => simp [hout]
    | exc m => simp [hout]
  · unfold ManagedThreadPoolExecutor.map
    rw [if_neg hn]
    rw [submitPhase_all (flagAfter none) items 0 (fun c' _ => rfl)]
    exact collectPhase_all fnOut items (flagAfter none) (i :: rest)
      (0 + 2 * items.length) (fun n => rfl) hvalid hnokb

/-- Witness for C10 at a concrete input: one item, no callback supplied:
`TypeError`; with a callback: one successful result. -/
theorem map_without_callback_raises_TypeError_witness :
    ((∀ n ∈ [0], n < ([7] : List Nat).length) ∧
      (∀ a ∈ ([7] : List Nat), TaskOutcome.ok a ≠ TaskOutcome.kbInterrupt)) ∧
    (ManagedThreadPoolExecutor.map (fun a => TaskOutcome.ok a) [7]
        (flagAfter none) [0] false = Except.error PyExc.typeError ∧
      ManagedThreadPoolExecutor.map (fun a => TaskOutcome.ok a) [7]
        (flagAfter none) [0] true
        = Except.ok (resultsFor (fun a => TaskOutcome.ok a) [7] [0])) :=
  ⟨⟨by decide, by decide⟩,
    map_without_callback_raises_TypeError Nat Nat (fun a => TaskOutcome.ok a)
      [7] [0] 0 [] rfl (by decide) (by decide)⟩

end Mailbackup







